import Mathlib

/-!
Shallow embedding of `dragons/nbody/io.py` (the gbpCode binary readers):
`read_grid`, `read_density_grid` and `read_halo_catalog`, together with the
machinery needed to state and settle the specification claims about them.

Modelling conventions:
* bytes are `Nat` values (< 256 for well-formed files); a grid file is the
  plain byte list handed to `read_grid` (the `open` call is reflected as a
  trace event, not a file-system lookup);
* 32-bit float payloads are kept as their little-endian 32-bit words: the
  reader never interprets the float values, it only copies them;
* `np.fromfile` returns as many complete items as remain in the stream
  (never more than `count`), exactly like numpy;
* the halo-catalog side is modelled at record granularity: a shard file is a
  parsed header plus a list of full halo records (each record includes the
  `padding` field, mirroring `catalog_halo_dtype` which parses padding so the
  on-disk record stride stays correct);
* `np.empty` returns uninitialised memory, modelled by an explicit `junk`
  parameter supplying the pre-existing contents of the allocation;
* Python exceptions are the `PyErr` error type; `logging`/`print`/`tqdm`
  side effects are ignored.
-/

namespace DragonsNbody

/-- Python exception kinds raised by the embedded reader code. `loopStuck` is
a fuel-exhaustion sentinel for the (unbounded) grid scan loop; it is never
reached on files the theorems below quantify over. -/
inductive PyErr where
  | indexError
  | valueError
  | fileNotFoundError
  | unboundLocalError
  | unicodeDecodeError
  | loopStuck
deriving DecidableEq

/-- Observable I/O events of `read_grid`: the file open, each 32-byte
identifier read, each forward seek over a skipped payload, and the final
payload read. -/
inductive GEvent where
  | openFile
  | identRead
  | seekFwd (nbytes : Nat)
  | payloadRead (nwords : Nat)
deriving DecidableEq

/-- Little-endian value of a byte list (least significant byte first). -/
def leWord (bs : List Nat) : Nat :=
  bs.foldr (fun b acc => b + 256 * acc) 0

/-- Little-endian 4-byte encoding of a 32-bit word. -/
def encodeU4 (n : Nat) : List Nat :=
  [n % 256, n / 256 % 256, n / 65536 % 256, n / 16777216 % 256]

/-- Model of `np.fromfile(f, dtype, count)` on an open stream: reads as many
complete `itemsize`-byte items as are available, capped at `count`, and
returns the raw items together with the advanced stream position. -/
def fromfileItems (file : List Nat) (pos itemsize count : Nat) :
    List (List Nat) × Nat :=
  let avail := (file.length - pos) / itemsize
  let m := min count avail
  ((List.range m).map (fun i => (file.drop (pos + i * itemsize)).take itemsize),
   pos + m * itemsize)

/-- Trailing-null stripping that numpy applies to `S`-dtype byte strings. -/
def stripTrailNulls (bs : List Nat) : List Nat :=
  (bs.reverse.dropWhile (fun b => b == 0)).reverse

/-- ASCII byte list of a Lean string (all identifiers involved are ASCII). -/
def strBytes (s : String) : List Nat :=
  s.data.map Char.toNat

/-- The `name_to_ident` dictionary lookup of `read_grid`, as an if-chain.
`none` is the `KeyError` case, in which the source merely logs an error and
leaves the local variable `ident` unbound. -/
def nameToIdent (grid_name : String) : Option (List Nat) :=
  if grid_name = "density" then some (strBytes "rho_r_dark")
  else if grid_name = "vx" then some (strBytes "v_x_r_dark")
  else if grid_name = "vy" then some (strBytes "v_y_r_dark")
  else if grid_name = "vz" then some (strBytes "v_z_r_dark")
  else none

/-- Model of `np.fromfile(fin, "S32", 1)[0][:10].decode("ascii")`: at least
32 bytes must remain (else the indexing `[0]` of the empty result raises
`IndexError`); numpy strips trailing nulls, the slice keeps the first 10
bytes, and `decode("ascii")` rejects bytes above 127. -/
def readIdent32 (file : List Nat) (pos : Nat) : Except PyErr (List Nat) :=
  if pos + 32 ≤ file.length then
    let raw := (file.drop pos).take 32
    let first10 := (stripTrailNulls raw).take 10
    if first10.all (fun b => b < 128) then .ok first10
    else .error .unicodeDecodeError
  else .error .indexError

/-- The `while skip:` identifier-scan loop of `read_grid`. The source loop is
unbounded (it never consults `n_grids`), so the model carries fuel; each
iteration reads one 32-byte identifier and, on mismatch, seeks forward
`4 * n_cell_total` bytes. When the dictionary lookup failed, the very first
use of the unbound `ident` in the comparison raises `UnboundLocalError`.
Returns the stream position just past the matched identifier. -/
def scanLoop (file : List Nat) (identOpt : Option (List Nat)) (ncell : Nat) :
    Nat → Nat → Except PyErr Nat × List GEvent
  | _, 0 => (.error .loopStuck, [])
  | pos, fuel + 1 =>
    match readIdent32 file pos with
    | .error e => (.error e, [.identRead])
    | .ok readId =>
      match identOpt with
      | none => (.error .unboundLocalError, [.identRead])
      | some tgt =>
        if readId = tgt then (.ok (pos + 32), [.identRead])
        else
          let rest := scanLoop file identOpt ncell (pos + 32 + 4 * ncell) fuel
          (rest.1, .identRead :: (.seekFwd (4 * ncell) :: rest.2))

/-- A parsed grid: the header dims list and the flat row-major payload words
(the reshape `grid.shape = n_cell` only attaches the dims). -/
structure GridResult where
  dims : List Nat
  data : List Nat
deriving DecidableEq

/-- Embedding of `read_grid(fname, grid_name)` over the file's byte list.
Header: 3 × i4 dims, 3 × f8 box size (discarded), i4 `n_grids` (bound but
never used afterwards by the source), i4 `ma_scheme` (discarded); then the
identifier scan loop and the final `<f4` payload read. Returns the Python
outcome together with the I/O event trace. -/
def read_grid (file : List Nat) (grid_name : String) :
    Except PyErr GridResult × List GEvent :=
  let identOpt := nameToIdent grid_name
  let step1 := fromfileItems file 0 4 3
  if step1.1.isEmpty then (.error .indexError, [.openFile])
  else
    let nCell := step1.1.map leWord
    let nCellTotal := nCell.prod
    let step2 := fromfileItems file step1.2 8 3
    let step3 := fromfileItems file step2.2 4 1
    if step3.1.isEmpty then (.error .indexError, [.openFile])
    else
      let step4 := fromfileItems file step3.2 4 1
      if step4.1.isEmpty then (.error .indexError, [.openFile])
      else
        match scanLoop file identOpt nCellTotal step4.2 (file.length + 1) with
        | (.error e, tr) => (.error e, .openFile :: tr)
        | (.ok posMatch, tr) =>
          let stepP := fromfileItems file posMatch 4 nCellTotal
          let words := stepP.1.map leWord
          if words.length = nCellTotal then
            (.ok ⟨nCell, words⟩, .openFile :: (tr ++ [.payloadRead nCellTotal]))
          else
            (.error .valueError, .openFile :: (tr ++ [.payloadRead nCellTotal]))

/-- Embedding of the deprecated `read_density_grid(fname)`: the body is a
plain delegation `read_grid(fname, "density")`; the `@deprecated` decorator
only emits a warning and does not change the call's behaviour. -/
def read_density_grid (file : List Nat) : Except PyErr GridResult × List GEvent :=
  read_grid file "density"

/-- One named grid stored in a grid file: a 32-byte identifier field and its
payload of 32-bit words. -/
structure GridBlock where
  ident : List Nat
  payload : List Nat
deriving DecidableEq

/-- Structured description of a grid file, used to build concrete byte lists
(via `encodeGridFile`) quantifying over all valid grid files. -/
structure GridFile where
  d0 : Nat
  d1 : Nat
  d2 : Nat
  boxBytes : List Nat
  maBytes : List Nat
  blocks : List GridBlock
deriving DecidableEq

/-- Total cell count of a grid file: the product of the three header dims. -/
def GridFile.ncell (f : GridFile) : Nat := f.d0 * f.d1 * f.d2

/-- Byte encoding of the payload words of one grid. -/
def encodeWords (ws : List Nat) : List Nat := (ws.map encodeU4).flatten

/-- Byte encoding of one stored grid: identifier bytes then payload. -/
def encodeBlock (b : GridBlock) : List Nat := b.ident ++ encodeWords b.payload

/-- Byte encoding of a whole grid file; the header `n_grids` field holds the
actual number of stored grids, as the format requires. -/
def encodeGridFile (f : GridFile) : List Nat :=
  encodeU4 f.d0 ++ encodeU4 f.d1 ++ encodeU4 f.d2 ++ f.boxBytes ++
    encodeU4 f.blocks.length ++ f.maBytes ++ (f.blocks.map encodeBlock).flatten

/-- Well-formedness of one stored grid with cell count `N`: a 32-byte ASCII
identifier (decodable after numpy null-stripping) and exactly `N` payload
words, each fitting in 32 bits. -/
def wfBlock (N : Nat) (b : GridBlock) : Prop :=
  b.ident.length = 32 ∧ (∀ x ∈ b.ident, x < 256) ∧
    ((stripTrailNulls b.ident).take 10).all (fun c => c < 128) = true ∧
    b.payload.length = N ∧ ∀ w ∈ b.payload, w < 4294967296

/-- A valid grid file in the documented layout: in-range header fields (kept
below 2^31 so the signed i4 on disk and the unsigned reading agree), 24 box
bytes, 4 `ma_scheme` bytes, and well-formed stored grids. -/
def ValidGridFile (f : GridFile) : Prop :=
  f.d0 < 2147483648 ∧ f.d1 < 2147483648 ∧ f.d2 < 2147483648 ∧
    f.boxBytes.length = 24 ∧ f.maBytes.length = 4 ∧
    f.blocks.length < 2147483648 ∧ ∀ b ∈ f.blocks, wfBlock f.ncell b

/-- The identifier string (as bytes) that `read_grid` computes for a stored
grid: trailing nulls stripped, first 10 bytes kept. -/
def readIdentOf (b : GridBlock) : List Nat := (stripTrailNulls b.ident).take 10

/-- The `catalog_header_dtype` record: four little-endian i4 fields (values
kept as `Nat`; valid headers stay below 2^31 where signed and unsigned
agree). -/
structure CatHeader where
  i_file : Nat
  N_files : Nat
  N_halos_file : Nat
  N_halos_total : Nat
deriving DecidableEq

/-- One halo record in the `catalog_halo_dtype` layout. Numeric fields hold
the raw binary words (the reader copies them without interpretation);
3-vectors and the 3 × 3 eigenvector matrix are lists; `padding` is the
8-byte `S8` field that the dtype parses so the on-disk record stride stays
correct. -/
structure HaloRec where
  id_MBP : Nat
  M_vir : Nat
  n_particles : Nat
  position_COM : List Nat
  position_MBP : List Nat
  velocity_COM : List Nat
  velocity_MBP : List Nat
  R_vir : Nat
  R_halo : Nat
  R_max : Nat
  V_max : Nat
  sigma_v : Nat
  spin : List Nat
  q_triaxial : Nat
  s_triaxial : Nat
  shape_eigen_vectors : List (List Nat)
  padding : List Nat
deriving DecidableEq

/-- The caller-visible view of a halo record after
`halo[list(catalog_halo_dtype.names[:-1])]`: every field except `padding`. -/
structure HaloView where
  id_MBP : Nat
  M_vir : Nat
  n_particles : Nat
  position_COM : List Nat
  position_MBP : List Nat
  velocity_COM : List Nat
  velocity_MBP : List Nat
  R_vir : Nat
  R_halo : Nat
  R_max : Nat
  V_max : Nat
  sigma_v : Nat
  spin : List Nat
  q_triaxial : Nat
  s_triaxial : Nat
  shape_eigen_vectors : List (List Nat)
deriving DecidableEq

/-- Field projection performed by the final fancy-indexing step of
`read_halo_catalog`: keep all named fields except `padding`. -/
def toView (r : HaloRec) : HaloView :=
  ⟨r.id_MBP, r.M_vir, r.n_particles, r.position_COM, r.position_MBP,
   r.velocity_COM, r.velocity_MBP, r.R_vir, r.R_halo, r.R_max, r.V_max,
   r.sigma_v, r.spin, r.q_triaxial, r.s_triaxial, r.shape_eigen_vectors⟩

/-- `catalog_halo_dtype.names`: the seventeen named fields of the on-disk
halo record, in declaration order, `padding` last. -/
def catalogFieldNames : List String :=
  ["id_MBP", "M_vir", "n_particles", "position_COM", "position_MBP",
   "velocity_COM", "velocity_MBP", "R_vir", "R_halo", "R_max", "V_max",
   "sigma_v", "spin", "q_triaxial", "s_triaxial", "shape_eigen_vectors",
   "padding"]

/-- The numpy record array returned to the caller: its exposed field names
and its rows. -/
structure NpRecArray where
  fieldNames : List String
  rows : List HaloView
deriving DecidableEq

/-- A parsed catalog shard file: its header record and the full halo records
of its body. -/
structure ShardFile where
  header : CatHeader
  body : List HaloRec
deriving DecidableEq

/-- The file-system surface `read_halo_catalog` touches: `os.path.isdir`,
`os.listdir`, and opening a shard file by path (`none` models a missing
file, i.e. `FileNotFoundError`). -/
structure FS where
  isDir : String → Bool
  listDir : String → List String
  fileAt : String → Option ShardFile

/-- The two runtime shapes the source accepts for `catalog_loc`: a single
path string or a list of path strings. -/
inductive CatalogInput where
  | str (s : String)
  | strList (ps : List String)

/-- Whitespace stripping that Python `int(str)` applies before parsing. -/
def pyStripChars (cs : List Char) : List Char :=
  ((cs.dropWhile Char.isWhitespace).reverse.dropWhile Char.isWhitespace).reverse

/-- Tail of a Python integer literal after its first digit: digits with
single underscores allowed between digits only. -/
def digitTail : List Char → Bool
  | [] => true
  | '_' :: c :: r => c.isDigit && digitTail r
  | ['_'] => false
  | c :: r => c.isDigit && digitTail r

/-- A nonempty digit sequence in Python `int` syntax (no sign). -/
def digitsOk : List Char → Bool
  | [] => false
  | c :: r => c.isDigit && digitTail r

/-- Numeric value of a digit sequence, underscores removed. -/
def digitsVal (cs : List Char) : Nat :=
  (cs.filter (fun c => c ≠ '_')).foldl (fun a c => 10 * a + (c.toNat - 48)) 0

/-- Model of Python `int(s)` on a string: strip whitespace, allow one
optional sign, then base-10 digits with embedded single underscores.
`none` is the `ValueError` case. -/
def pyInt (s : String) : Option Int :=
  match pyStripChars s.data with
  | '+' :: rest => if digitsOk rest then some (digitsVal rest : Int) else none
  | '-' :: rest => if digitsOk rest then some (-(digitsVal rest : Int)) else none
  | cs => if digitsOk cs then some (digitsVal cs : Int) else none

/-- Model of `f.rsplit(".")[-1]`: the substring after the last `'.'`, or the
whole string when no dot occurs. -/
def suffixAfterLastDot (s : String) : String :=
  ((s.data.reverse.takeWhile (fun c => c ≠ '.')).reverse).asString

/-- The shard sort key `int(f.rsplit(".")[-1])` of one directory entry. -/
def shardKey (f : String) : Option Int := pyInt (suffixAfterLastDot f)

/-- Option-valued map over a list, failing when any element fails; this is
the observable behaviour of the list comprehension
`[int(f.rsplit(".")[-1]) for f in catalog_loc]`, which raises at its first
unparsable entry. -/
def listMapOpt {α β : Type} (g : α → Option β) : List α → Option (List β)
  | [] => some []
  | a :: l =>
    match g a, listMapOpt g l with
    | some b, some bs => some (b :: bs)
    | _, _ => none

/-- Stable insertion of a keyed entry into a key-sorted list. -/
def insertByKey (x : Int × String) : List (Int × String) → List (Int × String)
  | [] => [x]
  | y :: ys => if x.1 ≤ y.1 then x :: y :: ys else y :: insertByKey x ys

/-- Stable insertion sort on (key, entry) pairs, ascending by key: the model
of `np.argsort(file_num)` followed by reindexing (ties between equal keys
are not fixed by numpy's quicksort; no claim involves ties). -/
def sortPairs : List (Int × String) → List (Int × String)
  | [] => []
  | x :: xs => insertByKey x (sortPairs xs)

/-- The shard-discovery ordering step of `read_halo_catalog`: extract the
numeric suffix key of every directory entry (a failed `int` conversion
raises `ValueError` before any shard file is opened), then reorder the
entries ascending by key. -/
def sortShardFiles (entries : List String) : Except PyErr (List String) :=
  match listMapOpt shardKey entries with
  | none => .error .valueError
  | some keys => .ok ((sortPairs (keys.zip entries)).map Prod.snd)

/-- Model of `os.path.join(dirname, f)` for the plain relative entries that
`os.listdir` returns. -/
def pathJoin (d f : String) : String := d ++ "/" ++ f

/-- Model of the numpy slice assignment `buf[start : start + count] = recs`:
Python slice bounds clip at the buffer length; assignment succeeds when the
source length equals the slice length (or broadcasts a single record), and
raises `ValueError` otherwise. -/
def writeSlice (buf : List HaloRec) (start count : Nat) (recs : List HaloRec) :
    Except PyErr (List HaloRec) :=
  let lo := min start buf.length
  let hi := min (start + count) buf.length
  if recs.length = hi - lo then
    .ok (buf.take lo ++ recs ++ buf.drop hi)
  else
    match recs with
    | [r] => .ok (buf.take lo ++ List.replicate (hi - lo) r ++ buf.drop hi)
    | _ => .error .valueError

/-- The shard loop of `read_halo_catalog`: for each path, open the shard
(`FileNotFoundError` if missing), read its header's `N_halos_file`, read at
most that many records from its body (`np.fromfile` returns what is
available), slice-assign them into the output buffer at the running offset,
and advance the offset by the header count. Returns the final buffer and
the trace of successfully opened paths. -/
def catLoop (fs : FS) :
    List String → List HaloRec → Nat → Except PyErr (List HaloRec) × List String
  | [], buf, _ => (.ok buf, [])
  | p :: rest, buf, offset =>
    match fs.fileAt p with
    | none => (.error .fileNotFoundError, [])
    | some sh =>
      let k := sh.header.N_halos_file
      let recs := sh.body.take k
      match writeSlice buf offset k recs with
      | .error e => (.error e, [p])
      | .ok buf2 =>
        let res := catLoop fs rest buf2 (offset + k)
        (res.1, p :: res.2)

/-- Embedding of `read_halo_catalog(catalog_loc)`. A string input becomes a
one-element list; if the first entry is a directory its listing (sorted by
numeric suffix, then joined to the directory) replaces the input list; the
first path's header supplies `N_halos_total`, the output buffer is
`np.empty` of that length (contents = `junk`), and the shard loop fills it.
The result exposes every named field except `padding`. The second component
is the trace of successfully opened shard paths (the first path is opened
once for the total-count header read and again by the loop). -/
def read_halo_catalog (fs : FS) (junk : Nat → HaloRec) (input : CatalogInput) :
    Except PyErr NpRecArray × List String :=
  let locs := match input with | .str s => [s] | .strList ps => ps
  match locs with
  | [] => (.error .indexError, [])
  | l0 :: _ =>
    let pathsE : Except PyErr (List String) :=
      if fs.isDir l0 then
        match sortShardFiles (fs.listDir l0) with
        | .error e => .error e
        | .ok sorted => .ok (sorted.map (pathJoin l0))
      else .ok locs
    match pathsE with
    | .error e => (.error e, [])
    | .ok paths =>
      match paths with
      | [] => (.error .indexError, [])
      | p0 :: _ =>
        match fs.fileAt p0 with
        | none => (.error .fileNotFoundError, [])
        | some sh0 =>
          let total := sh0.header.N_halos_total
          let buf := (List.range total).map junk
          match catLoop fs paths buf 0 with
          | (.error e, tr) => (.error e, p0 :: tr)
          | (.ok finalBuf, tr) =>
            (.ok ⟨catalogFieldNames.dropLast, finalBuf.map toView⟩, p0 :: tr)

/-! Arithmetic and chunking lemmas for the byte-level grid encoding. -/

theorem leWord_encodeU4 (n : Nat) (h : n < 4294967296) : leWord (encodeU4 n) = n := by
  simp only [leWord, encodeU4, List.foldr]
  omega

theorem encodeU4_length (n : Nat) : (encodeU4 n).length = 4 := rfl

theorem encodeWords_cons (w : Nat) (ws : List Nat) :
    encodeWords (w :: ws) = encodeU4 w ++ encodeWords ws := by
  simp [encodeWords]

theorem encodeWords_length (ws : List Nat) : (encodeWords ws).length = 4 * ws.length := by
  induction ws with
  | nil => rfl
  | cons w ws ih =>
    rw [encodeWords_cons]
    simp only [List.length_append, encodeU4_length, ih, List.length_cons]
    omega

theorem encodeWords_chunk (ws : List Nat) :
    ∀ (rest : List Nat) (i : Nat) (h : i < ws.length),
      ((encodeWords ws ++ rest).drop (4 * i)).take 4 = encodeU4 (ws.get ⟨i, h⟩) := by
  induction ws with
  | nil => intro rest i h; simp at h
  | cons w ws ih =>
    intro rest i h
    match i with
    | 0 =>
      simp only [Nat.mul_zero, List.drop_zero, encodeWords_cons, List.append_assoc,
        List.get]
      exact List.take_left' (encodeU4_length w)
    | i + 1 =>
      have h4 : 4 * (i + 1) = (encodeU4 w).length + 4 * i := by
        simp [encodeU4_length]; omega
      rw [encodeWords_cons, List.append_assoc, h4, List.drop_append]
      exact ih rest i (by simpa using h)

theorem fromfileItems_words (file : List Nat) (pos : Nat) (ws rest : List Nat)
    (hdrop : file.drop pos = encodeWords ws ++ rest) :
    fromfileItems file pos 4 ws.length = (ws.map encodeU4, pos + 4 * ws.length) := by
  have hlen : file.length - pos = 4 * ws.length + rest.length := by
    have := congrArg List.length hdrop
    simpa [encodeWords_length] using this
  have hm : min ws.length ((file.length - pos) / 4) = ws.length := by omega
  unfold fromfileItems
  simp only [hm]
  rw [Prod.mk.injEq]
  constructor
  · apply List.ext_getElem
    · simp
    · intro i h1 h2
      simp only [List.getElem_map, List.getElem_range, List.length_range] at h1 ⊢
      have hdd : file.drop (pos + i * 4) = (encodeWords ws ++ rest).drop (4 * i) := by
        rw [← hdrop, List.drop_drop]
        ring_nf
      rw [hdd]
      have := encodeWords_chunk ws rest i (by simpa using h1)
      simpa [List.get_eq_getElem] using this
  · omega

/-- The fixed 44-byte header region of an encoded grid file. -/
def headerBytes (f : GridFile) : List Nat :=
  encodeU4 f.d0 ++ encodeU4 f.d1 ++ encodeU4 f.d2 ++ f.boxBytes ++
    encodeU4 f.blocks.length ++ f.maBytes

theorem encodeGridFile_eq (f : GridFile) :
    encodeGridFile f = headerBytes f ++ (f.blocks.map encodeBlock).flatten := by
  simp [encodeGridFile, headerBytes, List.append_assoc]

theorem headerBytes_length (f : GridFile) (hbox : f.boxBytes.length = 24)
    (hma : f.maBytes.length = 4) : (headerBytes f).length = 44 := by
  simp [headerBytes, hbox, hma, encodeU4_length]

theorem encodeBlock_length {N : Nat} {b : GridBlock} (h : wfBlock N b) :
    (encodeBlock b).length = 32 + 4 * N := by
  simp [encodeBlock, encodeWords_length, h.1, h.2.2.2.1]

theorem flatten_blocks_length {N : Nat} (bs : List GridBlock)
    (h : ∀ b ∈ bs, wfBlock N b) :
    ((bs.map encodeBlock).flatten).length = bs.length * (32 + 4 * N) := by
  induction bs with
  | nil => simp
  | cons b bs ih =>
    simp only [List.map_cons, List.flatten_cons, List.length_append,
      encodeBlock_length (h b (by simp)), ih (fun x hx => h x (by simp [hx])),
      List.length_cons]
    ring

theorem readIdent32_at_block (file pre suffix : List Nat) (b : GridBlock) (N : Nat)
    (hfile : file = pre ++ (encodeBlock b ++ suffix)) (hwf : wfBlock N b) :
    readIdent32 file pre.length = .ok (readIdentOf b) := by
  have hdrop : file.drop pre.length = b.ident ++ (encodeWords b.payload ++ suffix) := by
    rw [hfile, List.drop_left, encodeBlock, List.append_assoc]
  have hlen : pre.length + 32 ≤ file.length := by
    have h1 := congrArg List.length hdrop
    simp only [List.length_drop, List.length_append, hwf.1] at h1
    omega
  unfold readIdent32
  rw [if_pos hlen]
  have htake : (file.drop pre.length).take 32 = b.ident := by
    rw [hdrop]
    exact List.take_left' hwf.1
  simp only [htake, readIdentOf]
  rw [if_pos hwf.2.2.1]

theorem scanLoop_found (tgt : List Nat) (N : Nat) :
    ∀ (bs : List GridBlock) (i : Nat) (hi : i < bs.length)
      (file pre rest : List Nat) (fuel : Nat),
      file = pre ++ ((bs.map encodeBlock).flatten ++ rest) →
      (∀ b ∈ bs, wfBlock N b) →
      readIdentOf (bs.get ⟨i, hi⟩) = tgt →
      (∀ j (hj : j < i), readIdentOf (bs.get ⟨j, hj.trans hi⟩) ≠ tgt) →
      i < fuel →
      scanLoop file (some tgt) N pre.length fuel =
        (.ok (pre.length + i * (32 + 4 * N) + 32),
         (List.replicate i [GEvent.identRead, GEvent.seekFwd (4 * N)]).flatten ++
           [GEvent.identRead]) := by
  intro bs
  induction bs with
  | nil => intro i hi; simp at hi
  | cons b bs ih =>
    intro i hi file pre rest fuel hfile hwf hmatch hbefore hfuel
    obtain ⟨fuel, rfl⟩ : ∃ fm : Nat, fuel = fm + 1 := ⟨fuel - 1, by omega⟩
    have hwfb : wfBlock N b := hwf b (by simp)
    have hfile' : file = pre ++ (encodeBlock b ++ ((bs.map encodeBlock).flatten ++ rest)) := by
      rw [hfile]; simp [List.append_assoc]
    have hident := readIdent32_at_block file pre _ b N hfile' hwfb
    match i with
    | 0 =>
      simp only [List.get] at hmatch
      unfold scanLoop
      rw [hident]
      simp [hmatch]
    | i + 1 =>
      have hne : readIdentOf b ≠ tgt := by
        have := hbefore 0 (Nat.succ_pos i)
        simpa [List.get] using this
      unfold scanLoop
      rw [hident]
      simp only [if_neg hne]
      have hpre' : (pre ++ encodeBlock b).length = pre.length + (32 + 4 * N) := by
        simp [List.length_append, encodeBlock_length hwfb]
      have hrec := ih i (by simpa using hi) file (pre ++ encodeBlock b) rest fuel
        (by rw [hfile']; simp [List.append_assoc])
        (fun x hx => hwf x (by simp [hx]))
        (by simpa [List.get] using hmatch)
        (fun j hj => by
          have := hbefore (j + 1) (by omega)
          simpa [List.get] using this)
        (by omega)
      rw [hpre'] at hrec
      rw [show pre.length + (32 + 4 * N) = pre.length + 32 + 4 * N by omega] at hrec
      rw [hrec]
      simp only [List.replicate_succ, List.flatten_cons]
      rw [Prod.mk.injEq]
      constructor
      · congr 1
        ring
      · simp

theorem scanLoop_notFound (tgt : List Nat) (N : Nat) :
    ∀ (bs : List GridBlock) (file pre : List Nat) (fuel : Nat),
      file = pre ++ (bs.map encodeBlock).flatten →
      (∀ b ∈ bs, wfBlock N b) →
      (∀ b ∈ bs, readIdentOf b ≠ tgt) →
      bs.length < fuel →
      scanLoop file (some tgt) N pre.length fuel =
        (.error .indexError,
         (List.replicate bs.length [GEvent.identRead, GEvent.seekFwd (4 * N)]).flatten ++
           [GEvent.identRead]) := by
  intro bs
  induction bs with
  | nil =>
    intro file pre fuel hfile hwf hne hfuel
    obtain ⟨fuel, rfl⟩ : ∃ fm : Nat, fuel = fm + 1 := ⟨fuel - 1, by omega⟩
    have hlen : file.length = pre.length := by simp [hfile]
    have hid : readIdent32 file pre.length = .error .indexError := by
      unfold readIdent32
      rw [if_neg (by omega)]
    unfold scanLoop
    rw [hid]
    simp
  | cons b bs ih =>
    intro file pre fuel hfile hwf hne hfuel
    obtain ⟨fuel, rfl⟩ : ∃ fm : Nat, fuel = fm + 1 := ⟨fuel - 1, by omega⟩
    have hwfb : wfBlock N b := hwf b (by simp)
    have hfile' : file = pre ++ (encodeBlock b ++ (bs.map encodeBlock).flatten) := by
      rw [hfile]; simp [List.append_assoc]
    have hident := readIdent32_at_block file pre _ b N hfile' hwfb
    unfold scanLoop
    rw [hident]
    simp only [if_neg (hne b (by simp))]
    have hpre' : (pre ++ encodeBlock b).length = pre.length + (32 + 4 * N) := by
      simp [List.length_append, encodeBlock_length hwfb]
    have hrec := ih file (pre ++ encodeBlock b) fuel
      (by rw [hfile']; simp [List.append_assoc])
      (fun x hx => hwf x (by simp [hx]))
      (fun x hx => hne x (by simp [hx]))
      (by simp at hfuel ⊢; omega)
    rw [hpre'] at hrec
    rw [show pre.length + (32 + 4 * N) = pre.length + 32 + 4 * N by omega] at hrec
    rw [hrec]
    simp [List.replicate_succ]

theorem gridFile_header (f : GridFile) (hv : ValidGridFile f) :
    fromfileItems (encodeGridFile f) 0 4 3
        = ([encodeU4 f.d0, encodeU4 f.d1, encodeU4 f.d2], 12) ∧
      (fromfileItems (encodeGridFile f) 12 8 3).2 = 36 ∧
      fromfileItems (encodeGridFile f) 36 4 1 = ([encodeU4 f.blocks.length], 40) ∧
      fromfileItems (encodeGridFile f) 40 4 1 = ([f.maBytes], 44) := by
  obtain ⟨h0, h1, h2, hbox, hma, hk, hwf⟩ := hv
  have hlen : (encodeGridFile f).length
      = 44 + ((f.blocks.map encodeBlock).flatten).length := by
    rw [encodeGridFile_eq]
    simp [headerBytes_length f hbox hma]
  refine ⟨?_, ?_, ?_, ?_⟩
  · have hdrop : (encodeGridFile f).drop 0
        = encodeWords [f.d0, f.d1, f.d2] ++
          (f.boxBytes ++ (encodeU4 f.blocks.length ++
            (f.maBytes ++ (f.blocks.map encodeBlock).flatten))) := by
      simp [encodeGridFile, encodeWords, List.append_assoc]
    have := fromfileItems_words (encodeGridFile f) 0 [f.d0, f.d1, f.d2] _ hdrop
    simpa using this
  · unfold fromfileItems
    have hm : min 3 (((encodeGridFile f).length - 12) / 8) = 3 := by omega
    simp [hm]
  · have hpre : (encodeU4 f.d0 ++ encodeU4 f.d1 ++ encodeU4 f.d2 ++
        f.boxBytes).length = 36 := by
      simp [encodeU4_length, hbox]
    have hdrop : (encodeGridFile f).drop 36
        = encodeWords [f.blocks.length] ++
          (f.maBytes ++ (f.blocks.map encodeBlock).flatten) := by
      have hsplit : encodeGridFile f
          = (encodeU4 f.d0 ++ encodeU4 f.d1 ++ encodeU4 f.d2 ++ f.boxBytes) ++
            (encodeU4 f.blocks.length ++
              (f.maBytes ++ (f.blocks.map encodeBlock).flatten)) := by
        simp [encodeGridFile, List.append_assoc]
      rw [hsplit, List.drop_left' hpre]
      simp [encodeWords]
    have := fromfileItems_words (encodeGridFile f) 36 [f.blocks.length] _ hdrop
    simpa using this
  · have hpre : (encodeU4 f.d0 ++ encodeU4 f.d1 ++ encodeU4 f.d2 ++
        f.boxBytes ++ encodeU4 f.blocks.length).length = 40 := by
      simp [encodeU4_length, hbox]
    have hdrop : (encodeGridFile f).drop 40
        = f.maBytes ++ (f.blocks.map encodeBlock).flatten := by
      have hsplit : encodeGridFile f
          = (encodeU4 f.d0 ++ encodeU4 f.d1 ++ encodeU4 f.d2 ++ f.boxBytes ++
              encodeU4 f.blocks.length) ++
            (f.maBytes ++ (f.blocks.map encodeBlock).flatten) := by
        simp [encodeGridFile, List.append_assoc]
      rw [hsplit, List.drop_left' hpre]
    unfold fromfileItems
    have hm : min 1 (((encodeGridFile f).length - 40) / 4) = 1 := by omega
    have hr1 : List.range 1 = [0] := rfl
    simp only [hm, hr1, List.map_cons, List.map_nil, Nat.zero_mul, Nat.add_zero,
      Nat.one_mul, Prod.mk.injEq]
    constructor
    · rw [hdrop]
      rw [List.take_left' hma]
    · trivial

/-- C1: on a valid grid file whose header declares `n_grids = k` and whose
target on-disk identifier first occurs at block index `i` (position
`p = i + 1 ≤ k`), `read_grid` performs exactly `p` identifier reads and
`p - 1` forward seeks of `4 * dims[0] * dims[1] * dims[2]` bytes, reads no
skipped payload, and returns exactly the `dims[0] * dims[1] * dims[2]`
stored 32-bit words of that block, reshaped to the header dims. -/
theorem read_grid_reads_target_grid (f : GridFile) (grid_name : String)
    (tgt : List Nat) (i : Nat)
    (hv : ValidGridFile f) (hname : nameToIdent grid_name = some tgt)
    (hi : i < f.blocks.length)
    (hmatch : readIdentOf (f.blocks.get ⟨i, hi⟩) = tgt)
    (hbefore : ∀ j (hj : j < i), readIdentOf (f.blocks.get ⟨j, hj.trans hi⟩) ≠ tgt) :
    read_grid (encodeGridFile f) grid_name =
      (.ok ⟨[f.d0, f.d1, f.d2], (f.blocks.get ⟨i, hi⟩).payload⟩,
       .openFile ::
         ((List.replicate i [GEvent.identRead, GEvent.seekFwd (4 * f.ncell)]).flatten ++
           [GEvent.identRead, GEvent.payloadRead f.ncell])) ∧
      (f.blocks.get ⟨i, hi⟩).payload.length = f.ncell := by
  obtain ⟨hs1, hs2, hs3, hs4⟩ := gridFile_header f hv
  obtain ⟨h0, h1, h2, hbox, hma, hk, hwf⟩ := hv
  have hwfi : wfBlock f.ncell (f.blocks.get ⟨i, hi⟩) := hwf _ (f.blocks.get_mem _ _)
  have hplen : (f.blocks.get ⟨i, hi⟩).payload.length = f.ncell := hwfi.2.2.2.1
  have hc0 := leWord_encodeU4 f.d0 (by omega)
  have hc1 := leWord_encodeU4 f.d1 (by omega)
  have hc2 := leWord_encodeU4 f.d2 (by omega)
  have hbody : encodeGridFile f = headerBytes f ++ (f.blocks.map encodeBlock).flatten :=
    encodeGridFile_eq f
  have hhdr44 : (headerBytes f).length = 44 := headerBytes_length f hbox hma
  have hbodylen : ((f.blocks.map encodeBlock).flatten).length
      = f.blocks.length * (32 + 4 * f.ncell) := flatten_blocks_length f.blocks hwf
  have hflen : (encodeGridFile f).length
      = 44 + f.blocks.length * (32 + 4 * f.ncell) := by
    rw [hbody]
    simp [hhdr44, hbodylen]
  have hfuel : i < (encodeGridFile f).length + 1 := by
    have hb : f.blocks.length ≤ f.blocks.length * (32 + 4 * f.ncell) :=
      Nat.le_mul_of_pos_right _ (by omega)
    omega
  have hscan := scanLoop_found tgt f.ncell f.blocks i hi (encodeGridFile f)
      (headerBytes f) [] ((encodeGridFile f).length + 1)
      (by rw [hbody]; simp) hwf hmatch hbefore hfuel
  rw [hhdr44] at hscan
  have hdecomp : f.blocks = f.blocks.take i ++
      (f.blocks.get ⟨i, hi⟩) :: f.blocks.drop (i + 1) := by
    conv_lhs => rw [← List.take_append_drop i f.blocks]
    congr 1
    exact List.drop_eq_getElem_cons hi
  have hpreblocks_len : (((f.blocks.take i).map encodeBlock).flatten).length
      = i * (32 + 4 * f.ncell) := by
    rw [flatten_blocks_length _ (fun b hb => hwf b (List.mem_of_mem_take hb))]
    rw [List.length_take]
    congr 1
    omega
  have hflatsplit : ((f.blocks.map encodeBlock).flatten)
      = ((f.blocks.take i).map encodeBlock).flatten ++
        (encodeBlock (f.blocks.get ⟨i, hi⟩) ++
          ((f.blocks.drop (i + 1)).map encodeBlock).flatten) := by
    conv_lhs => rw [hdecomp]
    rw [List.map_append, List.map_cons, List.flatten_append, List.flatten_cons]
  have hsplit : encodeGridFile f
      = (headerBytes f ++ ((f.blocks.take i).map encodeBlock).flatten ++
          (f.blocks.get ⟨i, hi⟩).ident) ++
        (encodeWords (f.blocks.get ⟨i, hi⟩).payload ++
          ((f.blocks.drop (i + 1)).map encodeBlock).flatten) := by
    rw [hbody, hflatsplit, encodeBlock]
    simp only [List.append_assoc]
  have hposlen : ((headerBytes f ++ ((f.blocks.take i).map encodeBlock).flatten ++
      (f.blocks.get ⟨i, hi⟩).ident)).length = 44 + i * (32 + 4 * f.ncell) + 32 := by
    rw [List.length_append, List.length_append, hhdr44, hpreblocks_len, hwfi.1]
  have hpaydrop : (encodeGridFile f).drop (44 + i * (32 + 4 * f.ncell) + 32)
      = encodeWords (f.blocks.get ⟨i, hi⟩).payload ++
        ((f.blocks.drop (i + 1)).map encodeBlock).flatten := by
    conv_lhs => rw [hsplit]
    rw [← hposlen, List.drop_left]
  have hpay := fromfileItems_words (encodeGridFile f)
      (44 + i * (32 + 4 * f.ncell) + 32) ((f.blocks.get ⟨i, hi⟩).payload) _ hpaydrop
  rw [hplen] at hpay
  have hwords : (((f.blocks.get ⟨i, hi⟩).payload.map encodeU4).map leWord)
      = (f.blocks.get ⟨i, hi⟩).payload := by
    rw [List.map_map]
    have hcg : (f.blocks.get ⟨i, hi⟩).payload.map (leWord ∘ encodeU4)
        = (f.blocks.get ⟨i, hi⟩).payload.map id :=
      List.map_congr_left
        (fun w hw => leWord_encodeU4 w (hwfi.2.2.2.2 w hw))
    rw [hcg, List.map_id]
  refine ⟨?_, hplen⟩
  simp only [read_grid, hname, hs1, hs2, hs3, hs4]
  simp only [List.map_cons, List.map_nil, hc0, hc1, hc2, List.prod_cons,
    List.prod_nil, Nat.mul_one]
  have hprod : f.d0 * (f.d1 * f.d2) = f.ncell := by
    simp [GridFile.ncell]
    ring
  simp only [hprod]
  simp only [List.isEmpty_cons, Bool.false_eq_true, if_false, hscan, hpay, hwords,
    hplen, if_true]
  simp [List.append_assoc]

/-- Amended C4: on a valid grid file none of whose stored identifiers match
the target, `read_grid` scans all `n_grids` identifier entries, seeks past
each payload, then attempts one further identifier read past the declared
entries; that read hits end of file and the `[0]` indexing of the empty
numpy result raises `IndexError`. No `GridNotFound` error exists in the
source. -/
theorem read_grid_absent_ident (f : GridFile) (grid_name : String)
    (tgt : List Nat)
    (hv : ValidGridFile f) (hname : nameToIdent grid_name = some tgt)
    (habsent : ∀ b ∈ f.blocks, readIdentOf b ≠ tgt) :
    read_grid (encodeGridFile f) grid_name =
      (.error .indexError,
       .openFile ::
         ((List.replicate f.blocks.length
             [GEvent.identRead, GEvent.seekFwd (4 * f.ncell)]).flatten ++
           [GEvent.identRead])) := by
  obtain ⟨hs1, hs2, hs3, hs4⟩ := gridFile_header f hv
  obtain ⟨h0, h1, h2, hbox, hma, hk, hwf⟩ := hv
  have hc0 := leWord_encodeU4 f.d0 (by omega)
  have hc1 := leWord_encodeU4 f.d1 (by omega)
  have hc2 := leWord_encodeU4 f.d2 (by omega)
  have hbody : encodeGridFile f = headerBytes f ++ (f.blocks.map encodeBlock).flatten :=
    encodeGridFile_eq f
  have hhdr44 : (headerBytes f).length = 44 := headerBytes_length f hbox hma
  have hbodylen : ((f.blocks.map encodeBlock).flatten).length
      = f.blocks.length * (32 + 4 * f.ncell) := flatten_blocks_length f.blocks hwf
  have hflen : (encodeGridFile f).length
      = 44 + f.blocks.length * (32 + 4 * f.ncell) := by
    rw [hbody]
    simp [hhdr44, hbodylen]
  have hfuel : f.blocks.length < (encodeGridFile f).length + 1 := by
    have hb : f.blocks.length ≤ f.blocks.length * (32 + 4 * f.ncell) :=
      Nat.le_mul_of_pos_right _ (by omega)
    omega
  have hscan := scanLoop_notFound tgt f.ncell f.blocks (encodeGridFile f)
      (headerBytes f) ((encodeGridFile f).length + 1) hbody hwf habsent hfuel
  rw [hhdr44] at hscan
  simp only [read_grid, hname, hs1, hs2, hs3, hs4]
  simp only [List.map_cons, List.map_nil, hc0, hc1, hc2, List.prod_cons,
    List.prod_nil, Nat.mul_one]
  have hprod : f.d0 * (f.d1 * f.d2) = f.ncell := by
    simp [GridFile.ncell]
    ring
  simp only [hprod]
  simp only [List.isEmpty_cons, Bool.false_eq_true, if_false, hscan]

/-- Null-pad an ASCII identifier to the 32-byte on-disk field. -/
def padIdent (s : String) : List Nat :=
  strBytes s ++ List.replicate (32 - s.length) 0

/-- Concrete grid file with dims 1 × 1 × 2 and two stored grids; the density
identifier sits at position 2. -/
def gridFileA : GridFile :=
  { d0 := 1, d1 := 1, d2 := 2, boxBytes := List.replicate 24 0,
    maBytes := List.replicate 4 0,
    blocks := [⟨padIdent "v_x_r_dark", [10, 11]⟩,
               ⟨padIdent "rho_r_dark", [20, 21]⟩] }

/-- Concrete grid file with dims 1 × 1 × 1, header `n_grids = 1`, and a
single stored grid whose identifier is not the density identifier. -/
def gridFileB : GridFile :=
  { d0 := 1, d1 := 1, d2 := 1, boxBytes := List.replicate 24 0,
    maBytes := List.replicate 4 0,
    blocks := [⟨padIdent "v_x_r_dark", [10]⟩] }

/-- Witness for C1 at a concrete file: the density grid stored at position 2
of `gridFileA` is returned after 2 identifier reads, 1 seek of 8 bytes and
one payload read of 2 words. -/
theorem read_grid_reads_target_grid_witness :
    read_grid (encodeGridFile gridFileA) "density"
      = (.ok ⟨[1, 1, 2], [20, 21]⟩,
         [GEvent.openFile, GEvent.identRead, GEvent.seekFwd 8, GEvent.identRead,
          GEvent.payloadRead 2]) :=
  (read_grid_reads_target_grid gridFileA "density" (strBytes "rho_r_dark") 1
    (by unfold ValidGridFile wfBlock; decide) rfl (by decide) (by decide)
    (by decide)).1

/-- Counterexample for C4 as stated: on `gridFileB` (header declares
`n_grids = 1`, density absent) the call fails with `IndexError` — not a
`GridNotFound` error — and its trace contains 2 identifier-read attempts,
one more than the `n_grids = 1` entries the claim allows. -/
theorem read_grid_absent_counterexample :
    read_grid (encodeGridFile gridFileB) "density"
      = (.error .indexError,
         [GEvent.openFile, GEvent.identRead, GEvent.seekFwd 4, GEvent.identRead]) ∧
      gridFileB.blocks.length = 1 ∧
      (read_grid (encodeGridFile gridFileB) "density").2.count GEvent.identRead = 2 := by
  refine ⟨rfl, rfl, ?_⟩
  rfl

/-- Witness for the amended C4 at the concrete file `gridFileB`. -/
theorem read_grid_absent_ident_witness :
    read_grid (encodeGridFile gridFileB) "density"
      = (.error .indexError,
         .openFile ::
           ((List.replicate gridFileB.blocks.length
               [GEvent.identRead, GEvent.seekFwd (4 * gridFileB.ncell)]).flatten ++
             [GEvent.identRead])) :=
  read_grid_absent_ident gridFileB "density" (strBytes "rho_r_dark")
    (by unfold ValidGridFile wfBlock; decide) rfl (by decide)

/-- C5 evaluated at its failing input: for `grid_name = "temperature"` the
dictionary lookup fails, the source only logs the error, and the call then
opens the file, reads the header and the first 32-byte identifier, and
raises `UnboundLocalError` at the first use of the unbound `ident` — it
does not fail before I/O, and no `UnknownGridName` error exists. -/
theorem read_grid_unknown_name_does_io :
    nameToIdent "temperature" = none ∧
      read_grid (encodeGridFile gridFileB) "temperature"
        = (.error .unboundLocalError, [GEvent.openFile, GEvent.identRead]) :=
  ⟨rfl, rfl⟩

/-- C10: `read_density_grid` is an exact wrapper of
`read_grid(fname, "density")`: identical result and identical I/O trace on
every input byte list (the deprecation decorator only emits a warning). -/
theorem read_density_grid_is_read_grid_density :
    ∀ file : List Nat, read_density_grid file = read_grid file "density" :=
  fun _ => rfl

/-! Lemmas for the shard-discovery sort and the shard-filling loop. -/

theorem insertByKey_perm (x : Int × String) (l : List (Int × String)) :
    (insertByKey x l).Perm (x :: l) := by
  induction l with
  | nil => simp [insertByKey]
  | cons y ys ih =>
    unfold insertByKey
    by_cases h : x.1 ≤ y.1
    · rw [if_pos h]
    · rw [if_neg h]
      exact (ih.cons y).trans (List.Perm.swap x y ys)

theorem sortPairs_perm (l : List (Int × String)) : (sortPairs l).Perm l := by
  induction l with
  | nil => simp [sortPairs]
  | cons x xs ih =>
    unfold sortPairs
    exact (insertByKey_perm x (sortPairs xs)).trans (ih.cons x)

theorem insertByKey_sorted (x : Int × String) (l : List (Int × String))
    (h : l.Pairwise (fun a b => a.1 ≤ b.1)) :
    (insertByKey x l).Pairwise (fun a b => a.1 ≤ b.1) := by
  induction l with
  | nil => simp [insertByKey]
  | cons y ys ih =>
    rw [List.pairwise_cons] at h
    unfold insertByKey
    by_cases hxy : x.1 ≤ y.1
    · rw [if_pos hxy]
      refine List.pairwise_cons.mpr ⟨?_, List.pairwise_cons.mpr h⟩
      intro z hz
      rcases List.mem_cons.mp hz with rfl | hz'
      · exact hxy
      · exact hxy.trans (h.1 z hz')
    · rw [if_neg hxy]
      refine List.pairwise_cons.mpr ⟨?_, ih h.2⟩
      intro z hz
      have hz' := (insertByKey_perm x ys).subset hz
      rcases List.mem_cons.mp hz' with rfl | hz''
      · omega
      · exact h.1 z hz''

theorem sortPairs_sorted (l : List (Int × String)) :
    (sortPairs l).Pairwise (fun a b => a.1 ≤ b.1) := by
  induction l with
  | nil => simp [sortPairs]
  | cons x xs ih => exact insertByKey_sorted x (sortPairs xs) ih

theorem listMapOpt_length {α β : Type} (g : α → Option β) :
    ∀ (l : List α) (ks : List β), listMapOpt g l = some ks → ks.length = l.length := by
  intro l
  induction l with
  | nil => intro ks h; simp [listMapOpt] at h; simp [← h]
  | cons a l ih =>
    intro ks h
    unfold listMapOpt at h
    match hg : g a, hrec : listMapOpt g l with
    | some b, some bs =>
      rw [hg, hrec] at h
      simp at h
      subst h
      simp [ih bs hrec]
    | some b, none => rw [hg, hrec] at h; simp at h
    | none, _ => rw [hg] at h; simp at h

theorem listMapOpt_zip {α β : Type} (g : α → Option β) :
    ∀ (l : List α) (ks : List β), listMapOpt g l = some ks →
      ∀ p ∈ ks.zip l, g p.2 = some p.1 := by
  intro l
  induction l with
  | nil => intro ks h p hp; simp [listMapOpt] at h; subst h; simp at hp
  | cons a l ih =>
    intro ks h p hp
    unfold listMapOpt at h
    match hg : g a, hrec : listMapOpt g l with
    | some b, some bs =>
      rw [hg, hrec] at h
      simp at h
      subst h
      rcases List.mem_cons.mp hp with rfl | hp'
      · simpa using hg
      · exact ih bs hrec p hp'
    | some b, none => rw [hg, hrec] at h; simp at h
    | none, _ => rw [hg] at h; simp at h

theorem listMapOpt_none_of_mem {α β : Type} (g : α → Option β) :
    ∀ (l : List α), (∃ a ∈ l, g a = none) → listMapOpt g l = none := by
  intro l
  induction l with
  | nil => intro h; simp at h
  | cons a l ih =>
    intro h
    unfold listMapOpt
    rcases h with ⟨x, hx, hgx⟩
    rcases List.mem_cons.mp hx with rfl | hx'
    · rw [hgx]
    · rw [ih ⟨x, hx', hgx⟩]
      cases g a <;> rfl

theorem catLoop_ok (fs : FS) :
    ∀ (ps : List String) (shs : List ShardFile) (buf : List HaloRec) (offset : Nat),
      ps.length = shs.length →
      (∀ i (h1 : i < ps.length) (h2 : i < shs.length),
        fs.fileAt (ps.get ⟨i, h1⟩) = some (shs.get ⟨i, h2⟩)) →
      (∀ sh ∈ shs, sh.body.length = sh.header.N_halos_file) →
      offset + (shs.map (fun sh => sh.header.N_halos_file)).sum ≤ buf.length →
      catLoop fs ps buf offset =
        (.ok (buf.take offset ++ (shs.map ShardFile.body).flatten ++
          buf.drop (offset + (shs.map (fun sh => sh.header.N_halos_file)).sum)), ps) := by
  intro ps
  induction ps with
  | nil =>
    intro shs buf offset hlen hat hwf hfit
    have hnil : shs = [] := List.eq_nil_of_length_eq_zero (by simpa using hlen.symm)
    subst hnil
    simp [catLoop, List.take_append_drop]
  | cons p ps ih =>
    intro shs buf offset hlen hat hwf hfit
    obtain ⟨sh, shs', rfl⟩ : ∃ a l, shs = a :: l := by
      cases shs with
      | nil => simp at hlen
      | cons a l => exact ⟨a, l, rfl⟩
    have h0 : fs.fileAt p = some sh := by
      have := hat 0 (by simp) (by simp)
      simpa using this
    have hbody : sh.body.length = sh.header.N_halos_file := hwf sh (by simp)
    have hsum : (((sh :: shs').map (fun x => x.header.N_halos_file)).sum)
        = sh.header.N_halos_file +
          ((shs'.map (fun x => x.header.N_halos_file)).sum) := by simp
    rw [hsum] at hfit
    have hrecs : sh.body.take sh.header.N_halos_file = sh.body := by
      rw [← hbody]
      exact List.take_length sh.body
    have hlo : min offset buf.length = offset := by omega
    have hhi : min (offset + sh.header.N_halos_file) buf.length
        = offset + sh.header.N_halos_file := by omega
    have hcond : sh.body.length
        = min (offset + sh.header.N_halos_file) buf.length -
          min offset buf.length := by
      rw [hlo, hhi, hbody]
      omega
    have hws : writeSlice buf offset sh.header.N_halos_file sh.body
        = .ok (buf.take offset ++ sh.body ++
            buf.drop (offset + sh.header.N_halos_file)) := by
      simp only [writeSlice]
      rw [if_pos hcond, hlo, hhi]
    have htakelen : (buf.take offset ++ sh.body).length
        = offset + sh.header.N_halos_file := by
      simp [List.length_take, hbody]
      omega
    have hbuf2len : (buf.take offset ++ sh.body ++
        buf.drop (offset + sh.header.N_halos_file)).length = buf.length := by
      simp [List.length_take, List.length_drop, hbody]
      omega
    have hrec := ih shs'
      (buf.take offset ++ sh.body ++ buf.drop (offset + sh.header.N_halos_file))
      (offset + sh.header.N_halos_file)
      (by simpa using hlen)
      (fun i h1 h2 => by
        have := hat (i + 1) (by simpa using Nat.succ_lt_succ h1)
          (by simpa using Nat.succ_lt_succ h2)
        simpa using this)
      (fun x hx => hwf x (by simp [hx]))
      (by rw [hbuf2len]; omega)
    have htake2 : (buf.take offset ++ sh.body ++
        buf.drop (offset + sh.header.N_halos_file)).take
          (offset + sh.header.N_halos_file) = buf.take offset ++ sh.body :=
      List.take_left' htakelen
    have hdrop2 : (buf.take offset ++ sh.body ++
        buf.drop (offset + sh.header.N_halos_file)).drop
          (offset + sh.header.N_halos_file +
            (shs'.map (fun x => x.header.N_halos_file)).sum)
        = buf.drop (offset + (((sh :: shs').map
            (fun x => x.header.N_halos_file)).sum)) := by
      rw [show offset + sh.header.N_halos_file +
          (shs'.map (fun x => x.header.N_halos_file)).sum
        = (buf.take offset ++ sh.body).length +
          (shs'.map (fun x => x.header.N_halos_file)).sum by rw [htakelen]]
      rw [List.drop_append, List.drop_drop, hsum]
      congr 1
      omega
    simp only [catLoop, h0, hrecs, hws, hrec]
    rw [Prod.mk.injEq]
    constructor
    · rw [htake2, hdrop2]
      simp [List.append_assoc]
    · rfl

/-- A halo record whose `id_MBP` word is `n` (all other fields zero/empty);
used to build concrete shard files. -/
def mkHalo (n : Nat) : HaloRec :=
  ⟨n, 0, 0, [], [], [], [], 0, 0, 0, 0, 0, [], 0, 0, [], []⟩

/-- The all-zero halo record: the value every slot of a zero-initialised
buffer of `catalog_halo_dtype` records would hold (zero scalars, zero
3-vectors, zero eigenvector matrix, null padding bytes). -/
def zeroHaloRec : HaloRec :=
  ⟨0, 0, 0, [0, 0, 0], [0, 0, 0], [0, 0, 0], [0, 0, 0], 0, 0, 0, 0, 0,
   [0, 0, 0], 0, 0, [[0, 0, 0], [0, 0, 0], [0, 0, 0]], [0, 0, 0, 0, 0, 0, 0, 0]⟩

/-- Concrete shard 0 of the three-shard example: 2 of 10 halos. -/
def shardA : ShardFile := ⟨⟨0, 3, 2, 10⟩, [mkHalo 0, mkHalo 1]⟩

/-- Concrete shard 1 of the three-shard example: 5 of 10 halos. -/
def shardB : ShardFile :=
  ⟨⟨1, 3, 5, 10⟩, [mkHalo 2, mkHalo 3, mkHalo 4, mkHalo 5, mkHalo 6]⟩

/-- Concrete shard 2 of the three-shard example: 3 of 10 halos. -/
def shardC : ShardFile := ⟨⟨2, 3, 3, 10⟩, [mkHalo 7, mkHalo 8, mkHalo 9]⟩

/-- File system holding the three-shard example at paths `a`, `b`, `c`. -/
def fsABC : FS :=
  { isDir := fun _ => false, listDir := fun _ => [],
    fileAt := fun p =>
      if p = "a" then some shardA
      else if p = "b" then some shardB
      else if p = "c" then some shardC
      else none }

/-- A misconfigured shard set: the single shard holds 1 record but its
header declares `N_halos_total = 2`. -/
def shardShort : ShardFile := ⟨⟨0, 1, 1, 2⟩, [mkHalo 5]⟩

/-- File system holding only the misconfigured shard at path `a`. -/
def fsShort : FS :=
  { isDir := fun _ => false, listDir := fun _ => [],
    fileAt := fun p => if p = "a" then some shardShort else none }

/-- File system with a directory `d` listing three shard names whose
numeric suffixes are 2, 10 and 1; every joined shard path holds an empty
shard (0 of 0 halos). -/
def fsOrder : FS :=
  { isDir := fun p => p = "d",
    listDir := fun _ => ["catalog.2", "catalog.10", "catalog.1"],
    fileAt := fun p => if p = "d" then none else some ⟨⟨0, 3, 0, 0⟩, []⟩ }

/-- File system with a directory whose single entry has a non-numeric
suffix. -/
def fsBad : FS :=
  { isDir := fun _ => true, listDir := fun _ => ["catalog.abc"],
    fileAt := fun _ => none }

/-- File system with an empty directory. -/
def fsEmptyDir : FS :=
  { isDir := fun _ => true, listDir := fun _ => [], fileAt := fun _ => none }

/-- C2: on an explicit shard list (the sorted order), `read_halo_catalog`
sizes the output from the first shard's `N_halos_total`, then fills it by
copying each shard's `N_halos_file` records into the next unfilled slice at
a running offset: the result is exactly the concatenation of the shard
bodies, in shard order and on-disk order within each shard. -/
theorem read_halo_catalog_assembles (fs : FS) (junk : Nat → HaloRec)
    (p0 : String) (rest : List String) (sh0 : ShardFile) (shrest : List ShardFile)
    (hdir : fs.isDir p0 = false)
    (hlen : rest.length = shrest.length)
    (h0 : fs.fileAt p0 = some sh0)
    (hfs : ∀ i (h1 : i < rest.length) (h2 : i < shrest.length),
        fs.fileAt (rest.get ⟨i, h1⟩) = some (shrest.get ⟨i, h2⟩))
    (hwf : ∀ sh ∈ (sh0 :: shrest), sh.body.length = sh.header.N_halos_file)
    (htot : sh0.header.N_halos_total
        = ((sh0 :: shrest).map (fun sh => sh.header.N_halos_file)).sum) :
    read_halo_catalog fs junk (.strList (p0 :: rest)) =
      (.ok ⟨catalogFieldNames.dropLast,
            (((sh0 :: shrest).map ShardFile.body).flatten).map toView⟩,
       p0 :: p0 :: rest) := by
  have hat : ∀ i (h1 : i < (p0 :: rest).length) (h2 : i < (sh0 :: shrest).length),
      fs.fileAt ((p0 :: rest).get ⟨i, h1⟩) = some ((sh0 :: shrest).get ⟨i, h2⟩) := by
    intro i h1 h2
    match i with
    | 0 => simpa using h0
    | i + 1 =>
      exact hfs i (by simpa using h1) (by simpa using h2)
  have hbuflen : ((List.range sh0.header.N_halos_total).map junk).length
      = sh0.header.N_halos_total := by simp
  have hloop := catLoop_ok fs (p0 :: rest) (sh0 :: shrest)
      ((List.range sh0.header.N_halos_total).map junk) 0
      (by simpa using hlen) hat hwf (by rw [hbuflen]; omega)
  have hdropnil : ((List.range sh0.header.N_halos_total).map junk).drop
      (0 + ((sh0 :: shrest).map (fun sh => sh.header.N_halos_file)).sum) = [] :=
    List.drop_eq_nil_of_le (by rw [hbuflen, htot]; omega)
  simp only [read_halo_catalog, hdir, Bool.false_eq_true, if_false, hloop, h0,
    hdropnil, List.take_zero, List.nil_append, List.append_nil]

/-- Witness for C2 at the `n_halos_in_file = [2, 5, 3]`,
`n_halos_total = 10` example. -/
theorem read_halo_catalog_assembles_witness :
    read_halo_catalog fsABC mkHalo (.strList ["a", "b", "c"]) =
      (.ok ⟨catalogFieldNames.dropLast,
            (([shardA, shardB, shardC].map ShardFile.body).flatten).map toView⟩,
       ["a", "a", "b", "c"]) :=
  read_halo_catalog_assembles fsABC mkHalo "a" ["b", "c"] shardA [shardB, shardC]
    rfl rfl rfl (by decide) (by decide) (by decide)

/-- Amended C7: when the shard counts sum to fewer records than the
`N_halos_total` used to size the buffer, the unwritten tail slots keep the
allocation's pre-existing (uninitialised) contents — the `junk` the
`np.empty` call happened to return — with no zero guarantee. -/
theorem read_halo_catalog_short_tail (fs : FS) (junk : Nat → HaloRec)
    (p0 : String) (rest : List String) (sh0 : ShardFile) (shrest : List ShardFile)
    (hdir : fs.isDir p0 = false)
    (hlen : rest.length = shrest.length)
    (h0 : fs.fileAt p0 = some sh0)
    (hfs : ∀ i (h1 : i < rest.length) (h2 : i < shrest.length),
        fs.fileAt (rest.get ⟨i, h1⟩) = some (shrest.get ⟨i, h2⟩))
    (hwf : ∀ sh ∈ (sh0 :: shrest), sh.body.length = sh.header.N_halos_file)
    (hle : ((sh0 :: shrest).map (fun sh => sh.header.N_halos_file)).sum
        ≤ sh0.header.N_halos_total) :
    read_halo_catalog fs junk (.strList (p0 :: rest)) =
      (.ok ⟨catalogFieldNames.dropLast,
            ((((sh0 :: shrest).map ShardFile.body).flatten).map toView ++
              (((List.range sh0.header.N_halos_total).drop
                  (((sh0 :: shrest).map (fun sh => sh.header.N_halos_file)).sum)).map
                (fun n => toView (junk n))))⟩,
       p0 :: p0 :: rest) := by
  have hat : ∀ i (h1 : i < (p0 :: rest).length) (h2 : i < (sh0 :: shrest).length),
      fs.fileAt ((p0 :: rest).get ⟨i, h1⟩) = some ((sh0 :: shrest).get ⟨i, h2⟩) := by
    intro i h1 h2
    match i with
    | 0 => simpa using h0
    | i + 1 =>
      exact hfs i (by simpa using h1) (by simpa using h2)
  have hbuflen : ((List.range sh0.header.N_halos_total).map junk).length
      = sh0.header.N_halos_total := by simp
  have hloop := catLoop_ok fs (p0 :: rest) (sh0 :: shrest)
      ((List.range sh0.header.N_halos_total).map junk) 0
      (by simpa using hlen) hat hwf (by rw [hbuflen]; omega)
  have hdroptail : ((List.range sh0.header.N_halos_total).map junk).drop
      (0 + ((sh0 :: shrest).map (fun sh => sh.header.N_halos_file)).sum)
      = ((List.range sh0.header.N_halos_total).drop
          (((sh0 :: shrest).map (fun sh => sh.header.N_halos_file)).sum)).map junk := by
    rw [Nat.zero_add]
    exact (List.map_drop junk _ _).symm
  simp only [read_halo_catalog, hdir, Bool.false_eq_true, if_false, hloop, h0,
    hdroptail, List.take_zero, List.nil_append, List.map_append, List.map_map]
  rfl

/-- Counterexample for C7 as stated: with an allocation whose uninitialised
contents are `mkHalo 99` records, the single unwritten tail slot of the
misconfigured `fsShort` catalog holds `mkHalo 99`, not the all-zero record
the claim promises (`np.empty` gives no zero-initialisation). -/
theorem read_halo_catalog_tail_not_zero :
    read_halo_catalog fsShort (fun _ => mkHalo 99) (.str "a") =
      (.ok ⟨catalogFieldNames.dropLast, [toView (mkHalo 5), toView (mkHalo 99)]⟩,
       ["a", "a"]) ∧
      toView (mkHalo 99) ≠ toView zeroHaloRec := by
  exact ⟨rfl, by decide⟩

/-- Witness for the amended C7 at the misconfigured single-shard catalog. -/
theorem read_halo_catalog_short_tail_witness :
    read_halo_catalog fsShort (fun _ => mkHalo 99) (.strList ["a"]) =
      (.ok ⟨catalogFieldNames.dropLast,
            ((([shardShort].map ShardFile.body).flatten).map toView ++
              (((List.range shardShort.header.N_halos_total).drop
                  (([shardShort].map (fun sh => sh.header.N_halos_file)).sum)).map
                (fun n => toView ((fun _ => mkHalo 99) n))))⟩,
       ["a", "a"]) :=
  read_halo_catalog_short_tail fsShort (fun _ => mkHalo 99) "a" [] shardShort []
    rfl rfl rfl (by decide) (by decide) (by decide)

/-- C3: shard files are ordered ascending by the integer value of the
substring after the last `.` of each filename: the sort used by
`read_halo_catalog` permutes the directory entries into ascending numeric
key order; in particular `catalog.2, catalog.10, catalog.1` are processed
as `catalog.1, catalog.2, catalog.10` (numeric, not lexical order), as the
shard-open trace on `fsOrder` shows (the first open is the
`N_halos_total` header read of the first sorted shard). -/
theorem shard_order_numeric :
    (∀ (entries : List String) (keys : List Int),
        listMapOpt shardKey entries = some keys →
        ∃ out, sortShardFiles entries = .ok out ∧ out.Perm entries ∧
          out.Pairwise (fun a b => (shardKey a).getD 0 ≤ (shardKey b).getD 0)) ∧
      sortShardFiles ["catalog.2", "catalog.10", "catalog.1"]
        = .ok ["catalog.1", "catalog.2", "catalog.10"] ∧
      (read_halo_catalog fsOrder mkHalo (.str "d")).2
        = ["d/catalog.1", "d/catalog.1", "d/catalog.2", "d/catalog.10"] := by
  refine ⟨?_, rfl, rfl⟩
  intro entries keys hk
  refine ⟨(sortPairs (keys.zip entries)).map Prod.snd, ?_, ?_, ?_⟩
  · simp [sortShardFiles, hk]
  · have hperm := (sortPairs_perm (keys.zip entries)).map Prod.snd
    rw [List.map_snd_zip keys entries
      (le_of_eq (listMapOpt_length shardKey entries keys hk).symm)] at hperm
    exact hperm
  · have hs := sortPairs_sorted (keys.zip entries)
    have hkeys : ∀ p ∈ sortPairs (keys.zip entries), shardKey p.2 = some p.1 :=
      fun p hp => listMapOpt_zip shardKey entries keys hk p
        ((sortPairs_perm (keys.zip entries)).subset hp)
    rw [List.pairwise_map]
    refine hs.imp_of_mem ?_
    intro a b ha hb hab
    rw [hkeys a ha, hkeys b hb]
    simpa using hab

/-- Witness for C3 at the concrete filename list of the claim. -/
theorem shard_order_numeric_witness :
    ∃ out, sortShardFiles ["catalog.2", "catalog.10", "catalog.1"] = .ok out ∧
      out.Perm ["catalog.2", "catalog.10", "catalog.1"] ∧
      out.Pairwise (fun a b => (shardKey a).getD 0 ≤ (shardKey b).getD 0) :=
  shard_order_numeric.1 ["catalog.2", "catalog.10", "catalog.1"] [2, 10, 1]
    (by decide)

/-- C9: when some directory entry's suffix after the last `.` fails Python
`int` conversion, `read_halo_catalog` raises `ValueError` during the
shard-key list comprehension, before any shard file has been opened (the
open trace is empty). -/
theorem read_halo_catalog_bad_suffix (fs : FS) (junk : Nat → HaloRec) (d : String)
    (hdir : fs.isDir d = true)
    (hbad : ∃ e ∈ fs.listDir d, shardKey e = none) :
    read_halo_catalog fs junk (.str d) = (.error .valueError, []) := by
  have hnone := listMapOpt_none_of_mem shardKey (fs.listDir d) hbad
  simp only [read_halo_catalog, hdir, if_true, sortShardFiles, hnone]

/-- Witness for C9 at a directory containing `catalog.abc`. -/
theorem read_halo_catalog_bad_suffix_witness :
    read_halo_catalog fsBad mkHalo (.str "d") = (.error .valueError, []) :=
  read_halo_catalog_bad_suffix fsBad mkHalo "d" rfl
    ⟨"catalog.abc", by decide, by decide⟩

/-- Amended C6: an empty directory (or an empty path list) makes
`read_halo_catalog` fail with `IndexError` — indexing `catalog_loc[0]` on
the empty shard list (directory case: at the first-header `np.fromfile`;
empty-list case: already at the `os.path.isdir` check). The source has no
dedicated `EmptyInput` error. -/
theorem read_halo_catalog_empty_input :
    (∀ (fs : FS) (junk : Nat → HaloRec) (d : String),
        fs.isDir d = true → fs.listDir d = [] →
        read_halo_catalog fs junk (.str d) = (.error .indexError, [])) ∧
      ∀ (fs : FS) (junk : Nat → HaloRec),
        read_halo_catalog fs junk (.strList []) = (.error .indexError, []) := by
  constructor
  · intro fs junk d hdir hnil
    simp only [read_halo_catalog, hdir, hnil, if_true, sortShardFiles, listMapOpt,
      sortPairs, List.zip_nil_right, List.map_nil]
  · intro fs junk
    rfl

/-- Counterexample for C6 as stated: on the concrete empty directory the
failure is the generic `IndexError`, not any `EmptyInput` error. -/
theorem read_halo_catalog_empty_counterexample :
    read_halo_catalog fsEmptyDir mkHalo (.str "d") = (.error .indexError, []) ∧
      read_halo_catalog fsEmptyDir mkHalo (.strList []) = (.error .indexError, []) :=
  ⟨rfl, rfl⟩

/-- Witness for the amended C6 at the concrete empty directory. -/
theorem read_halo_catalog_empty_input_witness :
    read_halo_catalog fsEmptyDir (fun _ => mkHalo 7) (.str "d")
        = (.error .indexError, []) ∧
      read_halo_catalog fsEmptyDir (fun _ => mkHalo 7) (.strList [])
        = (.error .indexError, []) :=
  ⟨read_halo_catalog_empty_input.1 fsEmptyDir (fun _ => mkHalo 7) "d" rfl rfl,
   read_halo_catalog_empty_input.2 fsEmptyDir (fun _ => mkHalo 7)⟩

theorem catalog_fields_aux (fs : FS) (junk : Nat → HaloRec) (l0 : String)
    (tail : List String) (res : NpRecArray) (tr : List String)
    (h : read_halo_catalog fs junk (.strList (l0 :: tail)) = (.ok res, tr)) :
    res.fieldNames = catalogFieldNames.dropLast := by
  unfold read_halo_catalog at h
  dsimp only at h
  by_cases hd : fs.isDir l0 = true
  · rw [if_pos hd] at h
    cases hsort : sortShardFiles (fs.listDir l0) with
    | error e =>
      rw [hsort] at h
      simp at h
    | ok sorted =>
      rw [hsort] at h
      cases sorted with
      | nil => simp at h
      | cons q qs =>
        dsimp only [List.map_cons] at h
        cases hf : fs.fileAt (pathJoin l0 q) with
        | none => rw [hf] at h; simp at h
        | some sh0 =>
          rw [hf] at h
          dsimp only at h
          cases hcl : catLoop fs (pathJoin l0 q :: List.map (pathJoin l0) qs)
              ((List.range sh0.header.N_halos_total).map junk) 0 with
          | mk r tr2 =>
            rw [hcl] at h
            cases r with
            | error e => simp at h
            | ok buf =>
              simp only [Prod.mk.injEq, Except.ok.injEq] at h
              obtain ⟨h1, _⟩ := h
              rw [← h1]
  · rw [if_neg hd] at h
    dsimp only at h
    cases hf : fs.fileAt l0 with
    | none => rw [hf] at h; simp at h
    | some sh0 =>
      rw [hf] at h
      dsimp only at h
      cases hcl : catLoop fs (l0 :: tail)
          ((List.range sh0.header.N_halos_total).map junk) 0 with
      | mk r tr2 =>
        rw [hcl] at h
        cases r with
        | error e => simp at h
        | ok buf =>
          simp only [Prod.mk.injEq, Except.ok.injEq] at h
          obtain ⟨h1, _⟩ := h
          rw [← h1]

/-- C8: every successful `read_halo_catalog` call returns an array whose
named fields are exactly `catalog_halo_dtype.names[:-1]`: sixteen fields,
none of them `padding`, while the seventeen-field parse layout (which keeps
the record stride correct) ends in `padding`. -/
theorem read_halo_catalog_hides_padding :
    ∀ (fs : FS) (junk : Nat → HaloRec) (input : CatalogInput)
      (res : NpRecArray) (tr : List String),
      read_halo_catalog fs junk input = (.ok res, tr) →
      res.fieldNames = catalogFieldNames.dropLast ∧
        "padding" ∉ res.fieldNames ∧ res.fieldNames.length = 16 ∧
        catalogFieldNames.length = 17 ∧
        catalogFieldNames.getLast? = some "padding" := by
  intro fs junk input res tr h
  have hres : res.fieldNames = catalogFieldNames.dropLast := by
    cases input with
    | str s =>
      exact catalog_fields_aux fs junk s [] res tr h
    | strList ps =>
      cases ps with
      | nil => simp [read_halo_catalog] at h
      | cons l0 tail => exact catalog_fields_aux fs junk l0 tail res tr h
  refine ⟨hres, ?_, ?_, by decide, by decide⟩
  · rw [hres]; decide
  · rw [hres]; decide

/-- Witness for C8 at a concrete successful call. -/
theorem read_halo_catalog_hides_padding_witness :
    (⟨catalogFieldNames.dropLast,
        [toView (mkHalo 5), toView (mkHalo 99)]⟩ : NpRecArray).fieldNames
        = catalogFieldNames.dropLast ∧
      "padding" ∉ (⟨catalogFieldNames.dropLast,
        [toView (mkHalo 5), toView (mkHalo 99)]⟩ : NpRecArray).fieldNames ∧
      (⟨catalogFieldNames.dropLast,
        [toView (mkHalo 5), toView (mkHalo 99)]⟩ : NpRecArray).fieldNames.length = 16 ∧
      catalogFieldNames.length = 17 ∧
      catalogFieldNames.getLast? = some "padding" :=
  read_halo_catalog_hides_padding fsShort (fun _ => mkHalo 99) (.str "a")
    ⟨catalogFieldNames.dropLast, [toView (mkHalo 5), toView (mkHalo 99)]⟩
    ["a", "a"] rfl

end DragonsNbody
